import Mathlib

/-!
Verification of the banking program `src/Banco.py` against its
natural-language specification.

The program is a terminal bank simulator: a session ledger (balance,
statement, withdrawal count) with deposit/withdraw operations, a user and
account directory persisted as JSON files, and an input validator.

Shallow embedding conventions:
* money amounts (Python floats) are modelled as exact rationals `ℚ`;
* the statement string (Python appends formatted text lines) is modelled as
  a list of tagged movements, one entry per appended line;
* printed messages are returned as `String` fields of the result structures;
* the file system is a map from file names to file contents
  (`String → Option String`); Python's `json.dump`/`json.load` are modelled
  by an executable JSON serializer and parser defined below.
-/

/-! ## Constants (Banco.py lines 5-9) -/

def LIMITE_SAQUES : Nat := 3

def AGENCIA : String := "0001"

def USUARIOS_FILE : String := "usuarios.json"

def CONTAS_FILE : String := "contas.json"

/-! ## The session ledger -/

/-- One line of the statement text `extrato`: Banco.py appends
"Depósito:\tR$ {valor:.2f}\n" on deposit (line 58) and
"Saque:\t\tR$ {valor:.2f}\n" on withdrawal (line 77).  Each appended line is
modelled as one tagged movement carrying the amount. -/
inductive Movimento where
  | deposito (valor : ℚ)
  | saque (valor : ℚ)
deriving DecidableEq, Repr

/-- Message printed by `sacar` when `excedeu_saldo` (line 70). -/
def MSG_SEM_SALDO : String := "\n@@@ Operação falhou! Você não tem saldo suficiente. @@@"

/-- Message printed by `sacar` when `excedeu_limite` (line 72). -/
def MSG_EXCEDE_LIMITE : String := "\n@@@ Operação falhou! O valor do saque excede o limite. @@@"

/-- Message printed by `sacar` when `excedeu_saques` (line 74). -/
def MSG_MAX_SAQUES : String := "\n@@@ Operação falhou! Número máximo de saques excedido. @@@"

/-- Message printed by `sacar` on success (line 79). -/
def MSG_SAQUE_OK : String := "\n=== Saque realizado com sucesso! ==="

/-- Message printed by `depositar` (line 59). -/
def MSG_DEPOSITO_OK : String := "\n=== Depósito realizado com sucesso! ==="

/-- Message printed by `validar_valor` on invalid input (lines 48, 51). -/
def MSG_VALOR_INVALIDO : String := "\n@@@ Operação falhou! O valor informado é inválido. @@@"

/-- Result of `depositar`: the returned `(saldo, extrato)` pair plus the
printed message. -/
structure DepositoResultado where
  saldo : ℚ
  extrato : List Movimento
  mensagem : String
deriving DecidableEq, Repr

/-- Model of `depositar(saldo, valor, extrato)`, Banco.py lines 55-60: adds the
amount to the balance, appends one deposit line to the statement, prints a
success message. -/
def depositar (saldo : ℚ) (valor : ℚ) (extrato : List Movimento) : DepositoResultado :=
  ⟨saldo + valor, extrato ++ [Movimento.deposito valor], MSG_DEPOSITO_OK⟩

/-- Result of `sacar`: the returned `(saldo, extrato, numero_saques)` triple
plus the printed message. -/
structure SaqueResultado where
  saldo : ℚ
  extrato : List Movimento
  numero_saques : Nat
  mensagem : String
deriving DecidableEq, Repr

/-- Model of `sacar(saldo, valor, extrato, limite, numero_saques, limite_saques)`,
Banco.py lines 63-81: three rejection tests in order (`excedeu_saldo`,
`excedeu_limite`, `excedeu_saques`), else the withdrawal succeeds. -/
def sacar (saldo valor : ℚ) (extrato : List Movimento) (limite : ℚ)
    (numero_saques limite_saques : Nat) : SaqueResultado :=
  -- excedeu_saldo
  if valor > saldo then ⟨saldo, extrato, numero_saques, MSG_SEM_SALDO⟩
  -- excedeu_limite
  else if valor > limite then ⟨saldo, extrato, numero_saques, MSG_EXCEDE_LIMITE⟩
  -- excedeu_saques
  else if numero_saques ≥ limite_saques then ⟨saldo, extrato, numero_saques, MSG_MAX_SAQUES⟩
  else ⟨saldo - valor, extrato ++ [Movimento.saque valor], numero_saques + 1, MSG_SAQUE_OK⟩

/-! ## The input validator -/

/-- Whitespace stripped by Python's `float()` around a numeric literal. -/
def isWsChar (c : Char) : Bool :=
  c = ' ' || c = '\t' || c = '\n' || c = '\r' || c = '\x0b' || c = '\x0c'

/-- Value of a big-endian list of decimal digit characters. -/
def digitsToNat (cs : List Char) : Nat :=
  cs.foldl (fun a c => a * 10 + (c.toNat - Char.toNat '0')) 0

/-- The plain decimal fragment of Python's `float(text)`: optional
surrounding whitespace, optional sign, ASCII integer and/or fractional
digits, optional exponent, the value kept as an exact rational.

This deliberately models only a fragment.  `float()` itself accepts more
spellings (PEP 515 digit-group underscores, "inf"/"Infinity"/"nan" in any
case, the full Unicode decimal-digit and whitespace tables) and rounds the
literal to an IEEE-754 binary64 value, so a tiny literal such as 1e-400
underflows to 0.0 and a huge one overflows to the non-rational infinity.
Those behaviours belong to binary64 arithmetic and the Unicode tables, not
to the exact-rational model used here; within the fragment every accepted
literal denotes its exact decimal value. -/
def parseFloat (s : String) : Option ℚ :=
  let cs := ((s.data.dropWhile isWsChar).reverse.dropWhile isWsChar).reverse
  let signAndRest : ℚ × List Char :=
    match cs with
    | '+' :: r => (1, r)
    | '-' :: r => (-1, r)
    | r => (1, r)
  let sign := signAndRest.1
  let ipSplit := signAndRest.2.span Char.isDigit
  let fpSplit : List Char × List Char :=
    match ipSplit.2 with
    | '.' :: r => r.span Char.isDigit
    | r => ([], r)
  if ipSplit.1.isEmpty && fpSplit.1.isEmpty then none
  else
    let mant : ℚ := (digitsToNat ipSplit.1 : ℚ) +
      (digitsToNat fpSplit.1 : ℚ) / (10 : ℚ) ^ fpSplit.1.length
    match fpSplit.2 with
    | [] => some (sign * mant)
    | e :: r =>
      if e = 'e' || e = 'E' then
        let esignAndRest : Int × List Char :=
          match r with
          | '+' :: r2 => (1, r2)
          | '-' :: r2 => (-1, r2)
          | r2 => (1, r2)
        let edSplit := esignAndRest.2.span Char.isDigit
        if edSplit.1.isEmpty || !edSplit.2.isEmpty then none
        else some (sign * mant * (10 : ℚ) ^ (esignAndRest.1 * (digitsToNat edSplit.1 : Int)))
      else none

/-- Result of `validar_valor`: the returned amount (`None` modelled as
`none`) together with the message printed on failure. -/
structure ValidacaoResultado where
  valor : Option ℚ
  mensagem : Option String
deriving DecidableEq, Repr

/-- Model of `validar_valor(valor)`, Banco.py lines 41-52, over the decimal
fragment of `parseFloat`: a conversion failure (the `ValueError` branch) or
a non-positive converted value prints the invalid-value message and returns
`None`; a strictly positive value is returned with nothing printed. -/
def validar_valor (valor : String) : ValidacaoResultado :=
  match parseFloat valor with
  | some v => if v > 0 then ⟨some v, none⟩ else ⟨none, some MSG_VALOR_INVALIDO⟩
  | none => ⟨none, some MSG_VALOR_INVALIDO⟩

/-! ## The session state and the main loop's ledger dispatch -/

/-- The session-scoped ledger of `main` (Banco.py lines 143-146):
`saldo = 0`, `extrato = ""`, `numero_saques = 0`; `limite = 500` is fixed. -/
structure Ledger where
  saldo : ℚ
  extrato : List Movimento
  numero_saques : Nat
deriving DecidableEq, Repr

def estadoInicial : Ledger := ⟨0, [], 0⟩

/-- A ledger command of the main loop: menu option "d" or "s" together with
the text typed at the amount prompt. -/
inductive Comando where
  | deposito (texto : String)
  | saque (texto : String)
deriving DecidableEq, Repr

/-- One iteration of the main loop on a ledger command (Banco.py lines
155-170): the typed amount goes through `validar_valor`; `if valor:` (a
`None` result is falsy, and a returned amount is strictly positive hence
truthy) guards the call to `depositar` or `sacar` with `limite = 500` and
`limite_saques = LIMITE_SAQUES`. -/
def mainStep (st : Ledger) (c : Comando) : Ledger :=
  match c with
  | Comando.deposito t =>
    match (validar_valor t).valor with
    | some valor => let r := depositar st.saldo valor st.extrato
                    ⟨r.saldo, r.extrato, st.numero_saques⟩
    | none => st
  | Comando.saque t =>
    match (validar_valor t).valor with
    | some valor => let r := sacar st.saldo valor st.extrato 500 st.numero_saques LIMITE_SAQUES
                    ⟨r.saldo, r.extrato, r.numero_saques⟩
    | none => st

/-- Running the main loop over a finite list of ledger commands. -/
def mainRun (cmds : List Comando) : Ledger :=
  cmds.foldl mainStep estadoInicial

/-! ## JSON values

`salvar_dados`/`carregar_dados` (Banco.py lines 12-23) persist lists of
records with `json.dump(dados, f, indent=4)` and `json.load(f)`.  The JSON
value universe the program serializes (strings, integers, arrays, objects
with insertion-ordered keys) is modelled by `Json`; the serializer below
reproduces `json.dump`'s text (indent=4 pretty printing, `ensure_ascii`
escaping) and the parser models `json.load` on that fragment (floats,
booleans and null never occur in the persisted data and are out of the
modelled fragment). -/

inductive Json where
  | str (s : String)
  | int (n : Int)
  | arr (xs : List Json)
  | obj (fields : List (String × Json))

/-! ### Serializer (json.dump with indent=4, ensure_ascii=True) -/

/-- Digit character for `n < 16`, lowercase as in Python's `'{0:04x}'`. -/
def hexDigitChar (n : Nat) : Char :=
  match n with
  | 0 => '0' | 1 => '1' | 2 => '2' | 3 => '3' | 4 => '4'
  | 5 => '5' | 6 => '6' | 7 => '7' | 8 => '8' | 9 => '9'
  | 10 => 'a' | 11 => 'b' | 12 => 'c' | 13 => 'd' | 14 => 'e' | _ => 'f'

/-- The four hex digits of `n < 0x10000`, as in `'A'`. -/
def hex4Chars (n : Nat) : List Char :=
  [hexDigitChar (n / 4096 % 16), hexDigitChar (n / 256 % 16),
   hexDigitChar (n / 16 % 16), hexDigitChar (n % 16)]

/-- Decimal digits of `n`, big-endian, accumulator form. -/
def natDigitsAux (n : Nat) (acc : List Char) : List Char :=
  if h : n = 0 then acc
  else natDigitsAux (n / 10) (hexDigitChar (n % 10) :: acc)
termination_by n
decreasing_by exact Nat.div_lt_self (Nat.pos_of_ne_zero h) (by norm_num)

/-- Decimal digits of `n` (`"0"` for zero), as Python prints an int. -/
def natDigits (n : Nat) : List Char :=
  if n = 0 then ['0'] else natDigitsAux n []

/-- The rendering of a Python int by `json.dump`. -/
def encodeInt (n : Int) : List Char :=
  if n < 0 then '-' :: natDigits n.natAbs else natDigits n.toNat

/-- One character of a JSON string as `json.dumps` with `ensure_ascii=True`
emits it: the two-character escapes of `ESCAPE_DCT`, `\uXXXX` for the other
control and all non-ASCII characters (astral characters as a surrogate
pair), printable ASCII verbatim. -/
def escapeChar (c : Char) : List Char :=
  if c = '\\' then ['\\', '\\']
  else if c = '"' then ['\\', '"']
  else if c = '\x08' then ['\\', 'b']
  else if c = '\x0c' then ['\\', 'f']
  else if c = '\n' then ['\\', 'n']
  else if c = '\r' then ['\\', 'r']
  else if c = '\t' then ['\\', 't']
  else if c.toNat < 0x20 ∨ 0x7e < c.toNat then
    if c.toNat < 0x10000 then '\\' :: 'u' :: hex4Chars c.toNat
    else
      ('\\' :: 'u' :: hex4Chars (0xd800 + (c.toNat - 0x10000) / 0x400)) ++
      ('\\' :: 'u' :: hex4Chars (0xdc00 + (c.toNat - 0x10000) % 0x400))
  else [c]

/-- The escape of every character of a list, concatenated. -/
def escapeList (cs : List Char) : List Char :=
  cs.foldr (fun c acc => escapeChar c ++ acc) []

/-- A JSON string literal: quote, escaped characters, quote. -/
def encodeString (s : String) : List Char :=
  '"' :: (escapeList s.data ++ ['"'])

/-- The newline-plus-indentation `json.dump` emits between items at nesting
level `lvl` when `indent=4`. -/
def nlPad (lvl : Nat) : List Char :=
  '\n' :: List.replicate (4 * lvl) ' '

mutual

/-- The text `json.dump(v, f, indent=4)` produces for a value at nesting level `lvl`. -/
def encodeVal : Nat → Json → List Char
  | _, Json.str s => encodeString s
  | _, Json.int n => encodeInt n
  | _, Json.arr [] => ['[', ']']
  | lvl, Json.arr (x :: xs) =>
      '[' :: (nlPad (lvl + 1) ++ encodeVal (lvl + 1) x ++
        encodeItemsTail (lvl + 1) xs ++ nlPad lvl ++ [']'])
  | _, Json.obj [] => ['\x7b', '\x7d']
  | lvl, Json.obj (f :: fs) =>
      '\x7b' :: (nlPad (lvl + 1) ++ encodeField (lvl + 1) f ++
        encodeFieldsTail (lvl + 1) fs ++ nlPad lvl ++ ['\x7d'])

/-- A `"key": value` member of an object. -/
def encodeField : Nat → String × Json → List Char
  | lvl, (k, v) => encodeString k ++ ':' :: ' ' :: encodeVal lvl v

/-- The remaining items of a non-empty array: `,` then newline-indent then
the item, repeatedly. -/
def encodeItemsTail : Nat → List Json → List Char
  | _, [] => []
  | lvl, x :: xs => ',' :: (nlPad lvl ++ encodeVal lvl x ++ encodeItemsTail lvl xs)

/-- The remaining members of a non-empty object. -/
def encodeFieldsTail : Nat → List (String × Json) → List Char
  | _, [] => []
  | lvl, f :: fs => ',' :: (nlPad lvl ++ encodeField lvl f ++ encodeFieldsTail lvl fs)

end

/-! ### Parser (json.load on the persisted fragment) -/

/-- JSON inter-token whitespace. -/
def isJsonWs (c : Char) : Bool :=
  c = ' ' || c = '\t' || c = '\n' || c = '\r'

/-- Skip inter-token whitespace. -/
def skipWs (cs : List Char) : List Char :=
  cs.dropWhile isJsonWs

/-- Value of one hex digit (both cases accepted, as in `json.load`). -/
def hexVal (c : Char) : Option Nat :=
  if '0' ≤ c ∧ c ≤ '9' then some (c.toNat - Char.toNat '0')
  else if 'a' ≤ c ∧ c ≤ 'f' then some (c.toNat - Char.toNat 'a' + 10)
  else if 'A' ≤ c ∧ c ≤ 'F' then some (c.toNat - Char.toNat 'A' + 10)
  else none

/-- Four hex digits and their value. -/
def hex4 (cs : List Char) : Option (Nat × List Char) :=
  match cs with
  | a :: b :: c :: d :: rest =>
    match hexVal a, hexVal b, hexVal c, hexVal d with
    | some x, some y, some z, some w => some (((x * 16 + y) * 16 + z) * 16 + w, rest)
    | _, _, _, _ => none
  | _ => none

/-- After a high surrogate `n1`, the matching `\uXXXX` low surrogate, and
the combined scalar value. -/
def parseLowSurrogate (n1 : Nat) (cs : List Char) : Option (Char × List Char) :=
  match cs with
  | '\\' :: 'u' :: rest2 =>
    match hex4 rest2 with
    | some (n2, rest3) =>
      if 0xdc00 ≤ n2 ∧ n2 < 0xe000 then
        some (Char.ofNat (0x10000 + (n1 - 0xd800) * 0x400 + (n2 - 0xdc00)), rest3)
      else none
    | none => none
  | _ => none

/-- The body of a `\uXXXX` escape, pairing surrogates as `json.load` does
(a lone surrogate cannot form a Lean `Char` and is out of the modelled
fragment). -/
def parseU (cs : List Char) : Option (Char × List Char) :=
  match hex4 cs with
  | none => none
  | some (n1, rest1) =>
    if 0xd800 ≤ n1 ∧ n1 < 0xdc00 then parseLowSurrogate n1 rest1
    else if 0xdc00 ≤ n1 ∧ n1 < 0xe000 then none
    else some (Char.ofNat n1, rest1)

/-- A backslash escape inside a JSON string, after the backslash. -/
def parseEscape (cs : List Char) : Option (Char × List Char) :=
  match cs with
  | [] => none
  | c :: rest =>
    if c = '"' then some ('"', rest)
    else if c = '\\' then some ('\\', rest)
    else if c = '/' then some ('/', rest)
    else if c = 'b' then some ('\x08', rest)
    else if c = 'f' then some ('\x0c', rest)
    else if c = 'n' then some ('\n', rest)
    else if c = 'r' then some ('\r', rest)
    else if c = 't' then some ('\t', rest)
    else if c = 'u' then parseU rest
    else none

theorem hex4_length {cs rest : List Char} {n : Nat} (h : hex4 cs = some (n, rest)) :
    rest.length + 4 = cs.length := by
  unfold hex4 at h
  split at h
  · split at h
    · simp only [Option.some.injEq, Prod.mk.injEq] at h
      obtain ⟨-, rfl⟩ := h
      simp only [List.length_cons]
    · exact absurd h (by simp)
  · exact absurd h (by simp)

theorem parseLowSurrogate_length {n1 : Nat} {cs rest : List Char} {c : Char}
    (h : parseLowSurrogate n1 cs = some (c, rest)) : rest.length ≤ cs.length := by
  unfold parseLowSurrogate at h
  split at h
  next rest2 =>
    split at h
    next n2 rest3 heq =>
      have := hex4_length heq
      split at h
      · simp only [Option.some.injEq, Prod.mk.injEq] at h
        obtain ⟨-, rfl⟩ := h
        simp only [List.length_cons]
        omega
      · exact absurd h (by simp)
    next => exact absurd h (by simp)
  next => exact absurd h (by simp)

theorem parseU_length {cs rest : List Char} {c : Char} (h : parseU cs = some (c, rest)) :
    rest.length ≤ cs.length := by
  unfold parseU at h
  split at h
  next => exact absurd h (by simp)
  next n1 rest1 heq =>
    have h1 := hex4_length heq
    split at h
    · have := parseLowSurrogate_length h
      omega
    · split at h
      · exact absurd h (by simp)
      · simp only [Option.some.injEq, Prod.mk.injEq] at h
        obtain ⟨-, rfl⟩ := h
        omega

theorem parseEscape_length {cs rest : List Char} {c : Char}
    (h : parseEscape cs = some (c, rest)) : rest.length < cs.length := by
  match cs with
  | [] => simp [parseEscape] at h
  | c0 :: rest0 =>
    simp only [parseEscape] at h
    split_ifs at h <;>
      first
      | (simp only [Option.some.injEq, Prod.mk.injEq] at h
         obtain ⟨-, rfl⟩ := h
         simp)
      | (have hu := parseU_length h
         simp only [List.length_cons]
         omega)
      | simp at h

/-- The characters of a JSON string body up to the closing quote, with
`json.load`'s strict handling: escapes are decoded and unescaped control
characters are refused. -/
def parseStrAux (acc : List Char) (cs : List Char) : Option (List Char × List Char) :=
  match cs with
  | [] => none
  | c :: rest =>
    if c = '"' then some (acc.reverse, rest)
    else if c = '\\' then
      match h : parseEscape rest with
      | some (c2, rest2) => parseStrAux (c2 :: acc) rest2
      | none => none
    else if c.toNat < 0x20 then none
    else parseStrAux (c :: acc) rest
termination_by cs.length
decreasing_by
  · have := parseEscape_length h
    simp only [List.length_cons]
    omega
  · simp only [List.length_cons]
    omega

/-- An integer literal (the number form the persisted data contains). -/
def parseNum (cs : List Char) : Option (Json × List Char) :=
  match cs with
  | [] => none
  | c :: rest =>
    if c = '-' then
      let ds := rest.span Char.isDigit
      if ds.1.isEmpty then none
      else some (Json.int (-(digitsToNat ds.1 : Int)), ds.2)
    else
      let ds := (c :: rest).span Char.isDigit
      if ds.1.isEmpty then none
      else some (Json.int (digitsToNat ds.1 : Int), ds.2)

mutual

/-- A JSON value; the fuel only bounds the nesting depth, every other
recursion is by consumed input. -/
def parseVal : Nat → List Char → Option (Json × List Char)
  | 0, _ => none
  | fuel + 1, cs =>
    match skipWs cs with
    | [] => none
    | c :: rest =>
      if c = '"' then
        match parseStrAux [] rest with
        | some (body, rest2) => some (Json.str (String.mk body), rest2)
        | none => none
      else if c = '[' then
        match skipWs rest with
        | [] => none
        | c2 :: rest2 =>
          if c2 = ']' then some (Json.arr [], rest2)
          else
            match parseItems fuel (c2 :: rest2) with
            | some (xs, rest3) => some (Json.arr xs, rest3)
            | none => none
      else if c = '\x7b' then
        match skipWs rest with
        | [] => none
        | c2 :: rest2 =>
          if c2 = '\x7d' then some (Json.obj [], rest2)
          else
            match parseFields fuel (c2 :: rest2) with
            | some (fs, rest3) => some (Json.obj fs, rest3)
            | none => none
      else parseNum (c :: rest)

/-- The items of a non-empty array, after the opening bracket. -/
def parseItems : Nat → List Char → Option (List Json × List Char)
  | 0, _ => none
  | fuel + 1, cs =>
    match parseVal fuel cs with
    | some (x, rest) =>
      match skipWs rest with
      | [] => none
      | c :: rest2 =>
        if c = ',' then
          match parseItems fuel rest2 with
          | some (xs, rest3) => some (x :: xs, rest3)
          | none => none
        else if c = ']' then some ([x], rest2)
        else none
    | none => none

/-- The members of a non-empty object, after the opening brace. -/
def parseFields : Nat → List Char → Option (List (String × Json) × List Char)
  | 0, _ => none
  | fuel + 1, cs =>
    match skipWs cs with
    | [] => none
    | c :: rest =>
      if c = '"' then
        match parseStrAux [] rest with
        | some (key, rest1) =>
          match skipWs rest1 with
          | [] => none
          | c2 :: rest2 =>
            if c2 = ':' then
              match parseVal fuel rest2 with
              | some (v, rest3) =>
                match skipWs rest3 with
                | [] => none
                | c3 :: rest4 =>
                  if c3 = ',' then
                    match parseFields fuel rest4 with
                    | some (fs, rest5) => some ((String.mk key, v) :: fs, rest5)
                    | none => none
                  else if c3 = '\x7d' then some ([(String.mk key, v)], rest4)
                  else none
              | none => none
            else none
        | none => none
      else none

end

/-- Model of `json.dump(dados, f, indent=4)`: the full text written to the file. -/
def jsonDump (j : Json) : String :=
  String.mk (encodeVal 0 j)

/-- Model of `json.load(f)`: parse the whole file, allowing trailing whitespace
only; `none` models the fatal `JSONDecodeError`. -/
def jsonLoad (s : String) : Option Json :=
  match parseVal (s.data.length + 1) s.data with
  | some (j, rest) => if (skipWs rest).isEmpty then some j else none
  | none => none

/-! ## The persistence adapter and the user/account directory -/

/-- The file system: file name to file contents. -/
def FS : Type := String → Option String

/-- Model of `salvar_dados(arquivo, dados)`, Banco.py lines 20-23: overwrites the
file with `json.dump(dados, f, indent=4)`. -/
def salvar_dados (arquivo : String) (dados : Json) (fs : FS) : FS :=
  fun p => if p = arquivo then some (jsonDump dados) else fs p

/-- Model of `carregar_dados(arquivo)`, Banco.py lines 12-17: `json.load` of the
file when it exists (`none` models the fatal parse error), the empty list
when it does not. -/
def carregar_dados (arquivo : String) (fs : FS) : Option Json :=
  match fs arquivo with
  | some conteudo => jsonLoad conteudo
  | none => some (Json.arr [])

/-- A user record, the dict built at Banco.py line 105. -/
structure Usuario where
  nome : String
  data_nascimento : String
  cpf : String
  endereco : String
deriving DecidableEq, Repr

/-- An account record, the dict built at Banco.py line 121. -/
structure Conta where
  agencia : String
  numero_conta : Nat
  usuario : Usuario
deriving DecidableEq, Repr

/-- The JSON shape of a user dict (insertion order of line 105). -/
def usuarioToJson (u : Usuario) : Json :=
  Json.obj [("nome", Json.str u.nome), ("data_nascimento", Json.str u.data_nascimento),
    ("cpf", Json.str u.cpf), ("endereco", Json.str u.endereco)]

/-- The JSON shape of an account dict (insertion order of line 121). -/
def contaToJson (c : Conta) : Json :=
  Json.obj [("agencia", Json.str c.agencia), ("numero_conta", Json.int c.numero_conta),
    ("usuario", usuarioToJson c.usuario)]

/-- Model of `filtrar_usuario(cpf, usuarios)`, Banco.py lines 110-112: the first
user whose CPF matches, else `None`. -/
def filtrar_usuario (cpf : String) (usuarios : List Usuario) : Option Usuario :=
  usuarios.find? (fun usuario => usuario.cpf == cpf)

/-- Message printed by `criar_usuario` on a duplicate CPF (line 98). -/
def MSG_USUARIO_JA_EXISTE : String := "\n@@@ Já existe usuário com esse CPF! @@@"

/-- Message printed by `criar_usuario` on success (line 107). -/
def MSG_USUARIO_CRIADO : String := "=== Usuário criado com sucesso! ==="

/-- Message printed by `criar_conta` on success (line 124). -/
def MSG_CONTA_CRIADA : String := "\n=== Conta criada com sucesso! ==="

/-- Message printed by `criar_conta` when the CPF is unknown (line 126). -/
def MSG_USUARIO_NAO_ENCONTRADO : String :=
  "\n@@@ Usuário não encontrado, fluxo de criação de conta encerrado! @@@"

/-- Result of `criar_usuario`: the user directory, the file system, and the
printed message. -/
structure CriarUsuarioResultado where
  usuarios : List Usuario
  fs : FS
  mensagem : String

/-- Model of `criar_usuario(usuarios)`, Banco.py lines 92-107: the typed CPF is
looked up first; a hit prints the duplicate message and returns with no
mutation and no write; otherwise the remaining fields are read, the new
user dict is appended and the directory is saved to `USUARIOS_FILE`. -/
def criar_usuario (usuarios : List Usuario) (fs : FS)
    (cpf nome data_nascimento endereco : String) : CriarUsuarioResultado :=
  match filtrar_usuario cpf usuarios with
  | some _ => ⟨usuarios, fs, MSG_USUARIO_JA_EXISTE⟩
  | none =>
    let usuarios2 := usuarios ++ [⟨nome, data_nascimento, cpf, endereco⟩]
    ⟨usuarios2, salvar_dados USUARIOS_FILE (Json.arr (usuarios2.map usuarioToJson)) fs,
      MSG_USUARIO_CRIADO⟩

/-- Result of `criar_conta`: the account directory, the file system, and
the printed message. -/
structure CriarContaResultado where
  contas : List Conta
  fs : FS
  mensagem : String

/-- Model of `criar_conta(agencia, numero_conta, usuarios, contas)`, Banco.py
lines 115-126: the typed CPF is looked up; a hit appends the account
embedding the found user record and saves to `CONTAS_FILE`; a miss prints
the not-found message with no mutation and no write. -/
def criar_conta (agencia : String) (numero_conta : Nat) (usuarios : List Usuario)
    (contas : List Conta) (fs : FS) (cpf : String) : CriarContaResultado :=
  match filtrar_usuario cpf usuarios with
  | some usuario =>
    let contas2 := contas ++ [⟨agencia, numero_conta, usuario⟩]
    ⟨contas2, salvar_dados CONTAS_FILE (Json.arr (contas2.map contaToJson)) fs,
      MSG_CONTA_CRIADA⟩
  | none => ⟨contas, fs, MSG_USUARIO_NAO_ENCONTRADO⟩

/-- The empty file system: no file exists. -/
def fsVazio : FS := fun _ => none

/-- The session invariant maintained by the main loop's ledger dispatch. -/
def invariante (st : Ledger) : Prop :=
  0 ≤ st.saldo ∧ st.numero_saques ≤ LIMITE_SAQUES

/-! ## Theorems: the ledger claims -/

theorem validar_valor_pos {t : String} {a : ℚ} (h : (validar_valor t).valor = some a) :
    0 < a := by
  unfold validar_valor at h
  cases hp : parseFloat t with
  | none =>
    rw [hp] at h
    exact absurd (show (none : Option ℚ) = some a from h) (by simp)
  | some v =>
    rw [hp] at h
    have h2 : (if v > 0 then (⟨some v, none⟩ : ValidacaoResultado)
        else ⟨none, some MSG_VALOR_INVALIDO⟩).valor = some a := h
    split_ifs at h2 with hv
    have h3 : some v = some a := h2
    injection h3 with h4
    subst h4
    exact hv

theorem mainStep_preserva_invariante (st : Ledger) (c : Comando) (h : invariante st) :
    invariante (mainStep st c) := by
  obtain ⟨h1, h2⟩ := h
  cases c with
  | deposito t =>
    cases hv : (validar_valor t).valor with
    | none =>
      simp only [mainStep, hv]
      exact ⟨h1, h2⟩
    | some v =>
      have hvp := validar_valor_pos hv
      simp only [mainStep, hv, depositar]
      exact ⟨add_nonneg h1 hvp.le, h2⟩
  | saque t =>
    cases hv : (validar_valor t).valor with
    | none =>
      simp only [mainStep, hv]
      exact ⟨h1, h2⟩
    | some v =>
      simp only [mainStep, hv]
      unfold sacar
      split_ifs with ha hb hc
      · exact ⟨h1, h2⟩
      · exact ⟨h1, h2⟩
      · exact ⟨h1, h2⟩
      · refine ⟨sub_nonneg.mpr (not_lt.mp ha), ?_⟩
        show st.numero_saques + 1 ≤ LIMITE_SAQUES
        omega

/-- Claim C3: starting from the initial session ledger (balance 0, empty
statement, withdrawal count 0), after every finite sequence of deposit and
withdrawal commands the balance is non-negative and the withdrawal count
never exceeds `LIMITE_SAQUES` (invalid inputs are no-ops, and validated
amounts are strictly positive, so this covers every sequence of positive
deposit and withdrawal amounts). -/
theorem mainRun_saldo_nao_negativo (cmds : List Comando) :
    0 ≤ (mainRun cmds).saldo ∧ (mainRun cmds).numero_saques ≤ LIMITE_SAQUES := by
  have main : ∀ l st, invariante st → invariante (List.foldl mainStep st l) := by
    intro l
    induction l with
    | nil => intro st h; exact h
    | cons c cs ih => intro st h; exact ih _ (mainStep_preserva_invariante st c h)
  exact main cmds estadoInicial ⟨le_refl 0, by simp [estadoInicial, LIMITE_SAQUES]⟩

/-- Claim C4: for every positive amount, `depositar` always succeeds,
returns the old balance plus the amount, and extends the statement by
exactly one appended deposit line; nothing else is touched. -/
theorem depositar_sempre_sucede (saldo valor : ℚ) (extrato : List Movimento)
    (hpos : 0 < valor) :
    depositar saldo valor extrato =
      ⟨saldo + valor, extrato ++ [Movimento.deposito valor], MSG_DEPOSITO_OK⟩ ∧
    (depositar saldo valor extrato).extrato.length = extrato.length + 1 :=
  ⟨rfl, by simp [depositar]⟩

theorem depositar_sempre_sucede_witness :
    (0 : ℚ) < 100 ∧
    (depositar 250 100 [Movimento.deposito 250] =
      ⟨250 + 100, [Movimento.deposito 250] ++ [Movimento.deposito 100], MSG_DEPOSITO_OK⟩ ∧
    (depositar 250 100 [Movimento.deposito 250]).extrato.length =
      [Movimento.deposito 250].length + 1) :=
  ⟨by norm_num, depositar_sempre_sucede 250 100 [Movimento.deposito 250] (by norm_num)⟩

/-- Claim C2: an amount above the balance is always rejected unchanged with
the insufficient-balance message, whatever the limit and count say; and the
three rejection messages follow the fixed priority order balance, limit,
count — each message appears exactly when its condition is the first true
one. -/
theorem sacar_prioridade_sem_saldo (saldo valor : ℚ) (extrato : List Movimento)
    (limite : ℚ) (numero_saques limite_saques : Nat) :
    (saldo < valor →
      sacar saldo valor extrato limite numero_saques limite_saques =
        ⟨saldo, extrato, numero_saques, MSG_SEM_SALDO⟩) ∧
    ((sacar saldo valor extrato limite numero_saques limite_saques).mensagem = MSG_SEM_SALDO
      ↔ saldo < valor) ∧
    ((sacar saldo valor extrato limite numero_saques limite_saques).mensagem = MSG_EXCEDE_LIMITE
      ↔ valor ≤ saldo ∧ limite < valor) ∧
    ((sacar saldo valor extrato limite numero_saques limite_saques).mensagem = MSG_MAX_SAQUES
      ↔ valor ≤ saldo ∧ valor ≤ limite ∧ limite_saques ≤ numero_saques) := by
  unfold sacar
  split_ifs with h1 h2 h3 <;>
    simp_all [MSG_SEM_SALDO, MSG_EXCEDE_LIMITE, MSG_MAX_SAQUES, MSG_SAQUE_OK, not_lt, le_of_lt]

/-- Claim C1, counterexample to the claim as stated: with the count already
at the maximum, a withdrawal amount that also exceeds the balance is
rejected with the insufficient-balance message, not the max-withdrawals
message. -/
theorem sacar_quarto_saque_mensagem_cex :
    (sacar 0 10 [] 500 3 LIMITE_SAQUES).mensagem = MSG_SEM_SALDO ∧
    MSG_SEM_SALDO ≠ MSG_MAX_SAQUES := by
  constructor
  · rfl
  · decide

/-- Claim C1 as amended: once the withdrawal count has reached
`LIMITE_SAQUES`, every further call with a positive amount is rejected and
leaves balance, statement and count unchanged; the max-withdrawals message
is the one reported exactly when the amount does not also exceed the
balance or the per-transaction limit (otherwise the earlier check's message
is reported instead). -/
theorem sacar_apos_max_saques (saldo valor : ℚ) (extrato : List Movimento)
    (limite : ℚ) (numero_saques : Nat) (hpos : 0 < valor)
    (hmax : LIMITE_SAQUES ≤ numero_saques) :
    ((sacar saldo valor extrato limite numero_saques LIMITE_SAQUES).saldo = saldo ∧
     (sacar saldo valor extrato limite numero_saques LIMITE_SAQUES).extrato = extrato ∧
     (sacar saldo valor extrato limite numero_saques LIMITE_SAQUES).numero_saques = numero_saques) ∧
    ((sacar saldo valor extrato limite numero_saques LIMITE_SAQUES).mensagem = MSG_MAX_SAQUES
      ↔ valor ≤ saldo ∧ valor ≤ limite) := by
  unfold sacar
  split_ifs with h1 h2 h3 <;>
    simp_all [MSG_SEM_SALDO, MSG_EXCEDE_LIMITE, MSG_MAX_SAQUES, not_lt, le_of_lt]

theorem sacar_apos_max_saques_witness :
    (0 : ℚ) < 10 ∧ LIMITE_SAQUES ≤ 3 ∧
    (((sacar 100 10 [] 500 3 LIMITE_SAQUES).saldo = 100 ∧
      (sacar 100 10 [] 500 3 LIMITE_SAQUES).extrato = [] ∧
      (sacar 100 10 [] 500 3 LIMITE_SAQUES).numero_saques = 3) ∧
     ((sacar 100 10 [] 500 3 LIMITE_SAQUES).mensagem = MSG_MAX_SAQUES
       ↔ (10 : ℚ) ≤ 100 ∧ (10 : ℚ) ≤ 500)) :=
  ⟨by norm_num, by decide, sacar_apos_max_saques 100 10 [] 500 3 (by norm_num) (by decide)⟩

/-- Claim C10: a positive amount within the balance, within the
per-transaction limit, and with the count strictly below the maximum is
withdrawn: the balance drops by the amount, the statement gains exactly one
withdrawal line, and the count increments; all three comparisons are
non-strict on the success side, so draining the balance exactly or hitting
the limit exactly still succeeds. -/
theorem sacar_sucesso_estrito (saldo valor : ℚ) (extrato : List Movimento)
    (limite : ℚ) (numero_saques limite_saques : Nat) (hpos : 0 < valor)
    (hsaldo : valor ≤ saldo) (hlimite : valor ≤ limite)
    (hsaques : numero_saques < limite_saques) :
    sacar saldo valor extrato limite numero_saques limite_saques =
      ⟨saldo - valor, extrato ++ [Movimento.saque valor], numero_saques + 1, MSG_SAQUE_OK⟩ := by
  unfold sacar
  split_ifs with h1 h2 h3
  · exact absurd h1 (not_lt.mpr hsaldo)
  · exact absurd h2 (not_lt.mpr hlimite)
  · exact absurd h3 (Nat.not_le.mpr hsaques)
  · rfl

theorem sacar_sucesso_estrito_witness :
    (0 : ℚ) < 500 ∧ (500 : ℚ) ≤ 500 ∧ 2 < 3 ∧
    sacar 500 500 [] 500 2 3 =
      ⟨500 - 500, [] ++ [Movimento.saque 500], 2 + 1, MSG_SAQUE_OK⟩ :=
  ⟨by norm_num, by norm_num, by norm_num,
    sacar_sucesso_estrito 500 500 [] 500 2 3 (by norm_num) (by norm_num) (by norm_num)
      (by norm_num)⟩

/-! ## Theorems: the directory claims -/

theorem filtrar_usuario_eq_none {cpf : String} {usuarios : List Usuario}
    (h : ∀ u ∈ usuarios, u.cpf ≠ cpf) : filtrar_usuario cpf usuarios = none := by
  unfold filtrar_usuario
  apply List.find?_eq_none.mpr
  intro u hu
  simp [h u hu]

/-- Claim C7: creating a user whose CPF is already in the directory reports
the duplicate message and performs no mutation and no file write; otherwise
the new user is appended and the directory is saved immediately. -/
theorem criar_usuario_contrato (usuarios : List Usuario) (fs : FS)
    (cpf nome data_nascimento endereco : String) :
    ((∃ u ∈ usuarios, u.cpf = cpf) →
      criar_usuario usuarios fs cpf nome data_nascimento endereco =
        ⟨usuarios, fs, MSG_USUARIO_JA_EXISTE⟩) ∧
    ((∀ u ∈ usuarios, u.cpf ≠ cpf) →
      criar_usuario usuarios fs cpf nome data_nascimento endereco =
        ⟨usuarios ++ [Usuario.mk nome data_nascimento cpf endereco],
         salvar_dados USUARIOS_FILE
           (Json.arr ((usuarios ++ [Usuario.mk nome data_nascimento cpf endereco]).map
             usuarioToJson))
           fs,
         MSG_USUARIO_CRIADO⟩) := by
  constructor
  · rintro ⟨u, hu, hcpf⟩
    cases hfind : List.find? (fun usuario => usuario.cpf == cpf) usuarios with
    | none => exact absurd (List.find?_eq_none.mp hfind u hu) (by simp [hcpf])
    | some v =>
      unfold criar_usuario filtrar_usuario
      rw [hfind]
  · intro hall
    unfold criar_usuario
    rw [filtrar_usuario_eq_none hall]

/-- Claim C8: creating an account for a CPF not present in the user
directory reports the not-found message, leaves the account directory
unchanged, and performs no file write. -/
theorem criar_conta_cpf_inexistente (agencia : String) (numero_conta : Nat)
    (usuarios : List Usuario) (contas : List Conta) (fs : FS) (cpf : String)
    (h : ∀ u ∈ usuarios, u.cpf ≠ cpf) :
    criar_conta agencia numero_conta usuarios contas fs cpf =
      ⟨contas, fs, MSG_USUARIO_NAO_ENCONTRADO⟩ := by
  unfold criar_conta
  rw [filtrar_usuario_eq_none h]

theorem criar_conta_cpf_inexistente_witness :
    (∀ u ∈ ([] : List Usuario), u.cpf ≠ "12345678900") ∧
    criar_conta AGENCIA 1 [] [] fsVazio "12345678900" =
      ⟨[], fsVazio, MSG_USUARIO_NAO_ENCONTRADO⟩ :=
  ⟨by simp, criar_conta_cpf_inexistente AGENCIA 1 [] [] fsVazio "12345678900" (by simp)⟩

/-! ## Round-trip of the JSON serializer and parser

The development below proves `jsonLoad (jsonDump j) = some j`, the heart of
the persistence round-trip claim. -/

theorem skipWs_cons_false {c : Char} {cs : List Char} (h : isJsonWs c = false) :
    skipWs (c :: cs) = c :: cs := by
  simp [skipWs, List.dropWhile_cons, h]

theorem skipWs_append_of_ws {ws : List Char} (cs : List Char)
    (h : ∀ c ∈ ws, isJsonWs c = true) : skipWs (ws ++ cs) = skipWs cs := by
  induction ws with
  | nil => rfl
  | cons a l ih =>
    have ha := h a (List.mem_cons_self a l)
    show skipWs (a :: (l ++ cs)) = skipWs cs
    unfold skipWs
    rw [List.dropWhile_cons, if_pos ha]
    exact ih (fun c hc => h c (List.mem_cons_of_mem a hc))

theorem nlPad_ws {lvl : Nat} : ∀ c ∈ nlPad lvl, isJsonWs c = true := by
  intro c hc
  simp only [nlPad, List.mem_cons, List.mem_replicate] at hc
  rcases hc with rfl | ⟨-, rfl⟩ <;> rfl

theorem parseVal_append_ws (f : Nat) {ws : List Char} (cs : List Char)
    (h : ∀ c ∈ ws, isJsonWs c = true) : parseVal f (ws ++ cs) = parseVal f cs := by
  cases f with
  | zero => rfl
  | succ f => simp only [parseVal, skipWs_append_of_ws cs h]

theorem parseItems_append_ws (f : Nat) {ws : List Char} (cs : List Char)
    (h : ∀ c ∈ ws, isJsonWs c = true) : parseItems f (ws ++ cs) = parseItems f cs := by
  cases f with
  | zero => rfl
  | succ f => simp only [parseItems, parseVal_append_ws f cs h]

theorem parseFields_append_ws (f : Nat) {ws : List Char} (cs : List Char)
    (h : ∀ c ∈ ws, isJsonWs c = true) : parseFields f (ws ++ cs) = parseFields f cs := by
  cases f with
  | zero => rfl
  | succ f => simp only [parseFields, skipWs_append_of_ws cs h]

theorem char_toNat_valid (c : Char) :
    c.toNat < 0xd800 ∨ (0xe000 ≤ c.toNat ∧ c.toNat < 0x110000) := by
  have h := c.valid
  simpa [UInt32.isValidChar, Nat.isValidChar, Char.toNat] using h

theorem hexVal_hexDigitChar {n : Nat} (h : n < 16) :
    hexVal (hexDigitChar n) = some n := by
  interval_cases n <;> decide

theorem hex4_hex4Chars (n : Nat) (h : n < 65536) (rest : List Char) :
    hex4 (hex4Chars n ++ rest) = some (n, rest) := by
  have h1 : n / 4096 % 16 < 16 := Nat.mod_lt _ (by norm_num)
  have h2 : n / 256 % 16 < 16 := Nat.mod_lt _ (by norm_num)
  have h3 : n / 16 % 16 < 16 := Nat.mod_lt _ (by norm_num)
  have h4 : n % 16 < 16 := Nat.mod_lt _ (by norm_num)
  have hval : ((n / 4096 % 16 * 16 + n / 256 % 16) * 16 + n / 16 % 16) * 16 + n % 16 = n := by
    omega
  simp only [hex4Chars, List.cons_append, List.nil_append, hex4,
    hexVal_hexDigitChar h1, hexVal_hexDigitChar h2, hexVal_hexDigitChar h3,
    hexVal_hexDigitChar h4, hval]

theorem parseU_bmp (c : Char) (h : c.toNat < 65536) (rest : List Char) :
    parseU (hex4Chars c.toNat ++ rest) = some (c, rest) := by
  have hv := char_toNat_valid c
  simp only [parseU, hex4_hex4Chars c.toNat h rest]
  rw [if_neg (by omega), if_neg (by omega), Char.ofNat_toNat]

theorem parseU_astral (c : Char) (hi lo : Nat) (h : 65536 ≤ c.toNat)
    (hhi : hi = 0xd800 + (c.toNat - 65536) / 1024)
    (hlo : lo = 0xdc00 + (c.toNat - 65536) % 1024) (rest : List Char) :
    parseU (hex4Chars hi ++ ('\\' :: 'u' :: (hex4Chars lo ++ rest))) = some (c, rest) := by
  have hv := char_toNat_valid c
  have hm : (c.toNat - 65536) % 1024 < 1024 := Nat.mod_lt _ (by norm_num)
  have hd : (c.toNat - 65536) / 1024 ≤ (c.toNat - 65536) := Nat.div_le_self _ _
  have hdlt : (c.toNat - 65536) / 1024 < 1024 := by omega
  simp only [parseU, hex4_hex4Chars hi (by omega)]
  rw [if_pos (by omega)]
  simp only [parseLowSurrogate, hex4_hex4Chars lo (by omega)]
  rw [if_pos (by omega)]
  have hre : 65536 + (hi - 0xd800) * 1024 + (lo - 0xdc00) = c.toNat := by omega
  rw [hre, Char.ofNat_toNat]

theorem parseStrAux_escapeChar (c : Char) (acc rest : List Char) :
    parseStrAux acc (escapeChar c ++ rest) = parseStrAux (c :: acc) rest := by
  by_cases h1 : c = '\\'
  · subst h1; simp [escapeChar, parseStrAux, parseEscape]
  by_cases h2 : c = '"'
  · subst h2; simp [escapeChar, parseStrAux, parseEscape, h1]
  by_cases h3 : c = '\x08'
  · subst h3; simp [escapeChar, parseStrAux, parseEscape]
  by_cases h4 : c = '\x0c'
  · subst h4; simp [escapeChar, parseStrAux, parseEscape]
  by_cases h5 : c = '\n'
  · subst h5; simp [escapeChar, parseStrAux, parseEscape]
  by_cases h6 : c = '\r'
  · subst h6; simp [escapeChar, parseStrAux, parseEscape]
  by_cases h7 : c = '\t'
  · subst h7; simp [escapeChar, parseStrAux, parseEscape]
  by_cases hr : c.toNat < 0x20 ∨ 0x7e < c.toNat
  · by_cases hb : c.toNat < 0x10000
    · have hesc : escapeChar c = '\\' :: 'u' :: hex4Chars c.toNat := by
        unfold escapeChar
        rw [if_neg h1, if_neg h2, if_neg h3, if_neg h4, if_neg h5, if_neg h6, if_neg h7,
          if_pos hr, if_pos hb]
      rw [hesc]
      simp [parseStrAux, parseEscape]
      rw [parseU_bmp c hb rest]
    · have hesc : escapeChar c =
          ('\\' :: 'u' :: hex4Chars (0xd800 + (c.toNat - 0x10000) / 0x400)) ++
          ('\\' :: 'u' :: hex4Chars (0xdc00 + (c.toNat - 0x10000) % 0x400)) := by
        unfold escapeChar
        rw [if_neg h1, if_neg h2, if_neg h3, if_neg h4, if_neg h5, if_neg h6, if_neg h7,
          if_pos hr, if_neg hb]
      obtain ⟨hi, hhi⟩ : ∃ hi, 0xd800 + (c.toNat - 0x10000) / 0x400 = hi := ⟨_, rfl⟩
      obtain ⟨lo, hlo⟩ : ∃ lo, 0xdc00 + (c.toNat - 0x10000) % 0x400 = lo := ⟨_, rfl⟩
      rw [hhi, hlo] at hesc
      rw [hesc]
      have hge : 65536 ≤ c.toNat := by omega
      simp only [List.cons_append, List.append_assoc]
      simp [parseStrAux, parseEscape]
      rw [parseU_astral c hi lo hge hhi.symm hlo.symm rest]
  · have hesc : escapeChar c = [c] := by
      unfold escapeChar
      rw [if_neg h1, if_neg h2, if_neg h3, if_neg h4, if_neg h5, if_neg h6, if_neg h7,
        if_neg hr]
    rw [hesc]
    have hlt : ¬ c.toNat < 0x20 := fun hlt => hr (Or.inl hlt)
    simp [parseStrAux, h1, h2, hlt]

theorem escapeList_cons (c : Char) (cs : List Char) :
    escapeList (c :: cs) = escapeChar c ++ escapeList cs := rfl

theorem parseStrAux_encode (cs : List Char) : ∀ acc rest : List Char,
    parseStrAux acc (escapeList cs ++ ('"' :: rest)) = some (acc.reverse ++ cs, rest) := by
  induction cs with
  | nil =>
    intro acc rest
    simp [escapeList, parseStrAux]
  | cons c cs ih =>
    intro acc rest
    rw [escapeList_cons, List.append_assoc, parseStrAux_escapeChar, ih (c :: acc)]
    simp

theorem string_mk_data (s : String) : String.mk s.data = s := rfl

theorem hexDigitChar_isDigit {m : Nat} (h : m < 10) : (hexDigitChar m).isDigit = true := by
  interval_cases m <;> decide

theorem hexDigitChar_val {m : Nat} (h : m < 10) :
    (hexDigitChar m).toNat - Char.toNat '0' = m := by
  interval_cases m <;> decide

theorem natDigitsAux_acc (n : Nat) : ∀ acc : List Char,
    natDigitsAux n acc = natDigitsAux n [] ++ acc := by
  induction n using Nat.strong_induction_on with
  | _ n ih =>
    intro acc
    by_cases h : n = 0
    · subst h
      rw [natDigitsAux, dif_pos rfl, natDigitsAux, dif_pos rfl]
      simp
    · have hlt : n / 10 < n := Nat.div_lt_self (Nat.pos_of_ne_zero h) (by norm_num)
      rw [natDigitsAux, dif_neg h, ih _ hlt]
      conv_rhs => rw [natDigitsAux, dif_neg h, ih _ hlt]
      simp

theorem natDigitsAux_all_digits (n : Nat) : ∀ acc : List Char,
    (∀ c ∈ acc, c.isDigit = true) → ∀ c ∈ natDigitsAux n acc, c.isDigit = true := by
  induction n using Nat.strong_induction_on with
  | _ n ih =>
    intro acc hacc c hc
    by_cases h : n = 0
    · subst h
      rw [natDigitsAux, dif_pos rfl] at hc
      exact hacc c hc
    · rw [natDigitsAux, dif_neg h] at hc
      refine ih _ (Nat.div_lt_self (Nat.pos_of_ne_zero h) (by norm_num)) _ ?_ c hc
      intro d hd
      rcases List.mem_cons.mp hd with rfl | hd2
      · exact hexDigitChar_isDigit (Nat.mod_lt _ (by norm_num))
      · exact hacc d hd2

theorem natDigits_all_digits (n : Nat) : ∀ c ∈ natDigits n, c.isDigit = true := by
  unfold natDigits
  split_ifs with h
  · intro c hc
    simp only [List.mem_singleton] at hc
    subst hc
    decide
  · exact natDigitsAux_all_digits n [] (by simp)

theorem natDigits_ne_nil (n : Nat) : natDigits n ≠ [] := by
  unfold natDigits
  split_ifs with h
  · simp
  · rw [natDigitsAux, dif_neg h, natDigitsAux_acc]
    simp

theorem digitsToNat_append_singleton (l : List Char) (d : Char) :
    digitsToNat (l ++ [d]) = digitsToNat l * 10 + (d.toNat - Char.toNat '0') := by
  unfold digitsToNat
  rw [List.foldl_append]
  rfl

theorem digitsToNat_natDigitsAux (n : Nat) (h : n ≠ 0) :
    digitsToNat (natDigitsAux n []) = n := by
  induction n using Nat.strong_induction_on with
  | _ n ih =>
    rw [natDigitsAux, dif_neg h, natDigitsAux_acc]
    have h1 : (hexDigitChar (n % 10) :: ([] : List Char)) = [hexDigitChar (n % 10)] := rfl
    rw [h1, digitsToNat_append_singleton, hexDigitChar_val (Nat.mod_lt _ (by norm_num))]
    by_cases h10 : n / 10 = 0
    · rw [h10, natDigitsAux, dif_pos rfl]
      have h2 : digitsToNat [] = 0 := rfl
      rw [h2]
      omega
    · rw [ih (n / 10) (Nat.div_lt_self (Nat.pos_of_ne_zero h) (by norm_num)) h10]
      omega

theorem digitsToNat_natDigits (n : Nat) : digitsToNat (natDigits n) = n := by
  unfold natDigits
  split_ifs with h
  · subst h; decide
  · exact digitsToNat_natDigitsAux n h

theorem takeWhile_append_all {p : Char → Bool} {l1 l2 : List Char}
    (h1 : ∀ c ∈ l1, p c = true) (h2 : ∀ c, l2.head? = some c → p c = false) :
    (l1 ++ l2).takeWhile p = l1 := by
  induction l1 with
  | nil =>
    cases l2 with
    | nil => rfl
    | cons a t => simp [List.takeWhile_cons, h2 a rfl]
  | cons a t ih =>
    have ha := h1 a (List.mem_cons_self a t)
    simp only [List.cons_append, List.takeWhile_cons, ha, if_true]
    rw [ih (fun c hc => h1 c (List.mem_cons_of_mem a hc))]

theorem dropWhile_append_all {p : Char → Bool} {l1 l2 : List Char}
    (h1 : ∀ c ∈ l1, p c = true) (h2 : ∀ c, l2.head? = some c → p c = false) :
    (l1 ++ l2).dropWhile p = l2 := by
  induction l1 with
  | nil =>
    cases l2 with
    | nil => rfl
    | cons a t => simp [List.dropWhile_cons, h2 a rfl]
  | cons a t ih =>
    have ha := h1 a (List.mem_cons_self a t)
    simp only [List.cons_append, List.dropWhile_cons, ha, if_true]
    exact ih (fun c hc => h1 c (List.mem_cons_of_mem a hc))

theorem span_append_all {p : Char → Bool} {l1 l2 : List Char}
    (h1 : ∀ c ∈ l1, p c = true) (h2 : ∀ c, l2.head? = some c → p c = false) :
    (l1 ++ l2).span p = (l1, l2) := by
  rw [List.span_eq_take_drop, takeWhile_append_all h1 h2, dropWhile_append_all h1 h2]

theorem isDigit_ne_of {c k : Char} (h : c.isDigit = true) (hk : k.isDigit = false) :
    c ≠ k := by
  intro e
  subst e
  rw [h] at hk
  cases hk

theorem parseNum_encodeInt (n : Int) (rest : List Char)
    (hrest : ∀ c, rest.head? = some c → c.isDigit = false) :
    parseNum (encodeInt n ++ rest) = some (Json.int n, rest) := by
  by_cases hneg : n < 0
  · rw [encodeInt, if_pos hneg]
    show parseNum ('-' :: (natDigits n.natAbs ++ rest)) = some (Json.int n, rest)
    rw [parseNum]
    rw [if_pos rfl]
    rw [span_append_all (natDigits_all_digits n.natAbs) hrest]
    have hne : (natDigits n.natAbs).isEmpty = false := by
      rw [List.isEmpty_eq_false_iff_exists_mem]
      obtain ⟨c, cs, hc⟩ := List.exists_cons_of_ne_nil (natDigits_ne_nil n.natAbs)
      exact ⟨c, by rw [hc]; exact List.mem_cons_self c cs⟩
    simp only [hne, Bool.false_eq_true, if_false, digitsToNat_natDigits]
    have : -((n.natAbs : Int)) = n := by omega
    rw [this]
  · rw [encodeInt, if_neg hneg]
    obtain ⟨c, cs, hc⟩ := List.exists_cons_of_ne_nil (natDigits_ne_nil n.toNat)
    have hdigs := natDigits_all_digits n.toNat
    have hcd : c.isDigit = true := hdigs c (by rw [hc]; exact List.mem_cons_self c cs)
    rw [hc]
    show parseNum (c :: (cs ++ rest)) = some (Json.int n, rest)
    rw [parseNum]
    rw [if_neg (isDigit_ne_of hcd (by decide))]
    have hspan : ((c :: cs) ++ rest).span Char.isDigit = (c :: cs, rest) := by
      rw [← hc]
      exact span_append_all hdigs hrest
    rw [List.cons_append] at hspan
    rw [hspan]
    have hne : (c :: cs).isEmpty = false := rfl
    simp only [hne, Bool.false_eq_true, if_false]
    rw [← hc, digitsToNat_natDigits]
    have : ((n.toNat : Int)) = n := by omega
    rw [this]

theorem encodeInt_head (n : Int) :
    ∃ c cs, encodeInt n = c :: cs ∧ (c = '-' ∨ c.isDigit = true) := by
  by_cases hneg : n < 0
  · rw [encodeInt, if_pos hneg]
    exact ⟨'-', natDigits n.natAbs, rfl, Or.inl rfl⟩
  · rw [encodeInt, if_neg hneg]
    obtain ⟨c, cs, hc⟩ := List.exists_cons_of_ne_nil (natDigits_ne_nil n.toNat)
    refine ⟨c, cs, hc, Or.inr ?_⟩
    exact natDigits_all_digits n.toNat c (by rw [hc]; exact List.mem_cons_self c cs)

theorem isDigit_not_jsonWs {c : Char} (h : c.isDigit = true) : isJsonWs c = false := by
  unfold isJsonWs
  have h1 : c ≠ ' ' := isDigit_ne_of h (by decide)
  have h2 : c ≠ '\t' := isDigit_ne_of h (by decide)
  have h3 : c ≠ '\n' := isDigit_ne_of h (by decide)
  have h4 : c ≠ '\r' := isDigit_ne_of h (by decide)
  simp [h1, h2, h3, h4]

theorem headClass_not_ws {c : Char}
    (h : c = '"' ∨ c = '[' ∨ c = '\x7b' ∨ c = '-' ∨ c.isDigit = true) :
    isJsonWs c = false := by
  rcases h with rfl | rfl | rfl | rfl | h
  · decide
  · decide
  · decide
  · decide
  · exact isDigit_not_jsonWs h

theorem headClass_ne {c k : Char}
    (h : c = '"' ∨ c = '[' ∨ c = '\x7b' ∨ c = '-' ∨ c.isDigit = true)
    (hk1 : ('"' : Char) ≠ k) (hk2 : ('[' : Char) ≠ k) (hk3 : ('\x7b' : Char) ≠ k)
    (hk4 : ('-' : Char) ≠ k) (hk5 : k.isDigit = false) : c ≠ k := by
  rcases h with rfl | rfl | rfl | rfl | h
  exacts [hk1, hk2, hk3, hk4, isDigit_ne_of h hk5]

theorem encodeVal_head (lvl : Nat) (j : Json) :
    ∃ c cs, encodeVal lvl j = c :: cs ∧
      (c = '"' ∨ c = '[' ∨ c = '\x7b' ∨ c = '-' ∨ c.isDigit = true) := by
  cases j with
  | str s =>
    exact ⟨'"', escapeList s.data ++ ['"'], by simp [encodeVal, encodeString], Or.inl rfl⟩
  | int n =>
    obtain ⟨c, cs, hc, hd⟩ := encodeInt_head n
    refine ⟨c, cs, by simp [encodeVal, hc], ?_⟩
    rcases hd with rfl | hd
    · exact Or.inr (Or.inr (Or.inr (Or.inl rfl)))
    · exact Or.inr (Or.inr (Or.inr (Or.inr hd)))
  | arr xs =>
    cases xs with
    | nil => exact ⟨'[', [']'], by simp [encodeVal], Or.inr (Or.inl rfl)⟩
    | cons x xs =>
      exact ⟨'[', nlPad (lvl + 1) ++ encodeVal (lvl + 1) x ++
        encodeItemsTail (lvl + 1) xs ++ nlPad lvl ++ [']'],
        by simp [encodeVal], Or.inr (Or.inl rfl)⟩
  | obj fs =>
    cases fs with
    | nil => exact ⟨'\x7b', ['\x7d'], by simp [encodeVal], Or.inr (Or.inr (Or.inl rfl))⟩
    | cons kv fs =>
      exact ⟨'\x7b', nlPad (lvl + 1) ++ encodeField (lvl + 1) kv ++
        encodeFieldsTail (lvl + 1) fs ++ nlPad lvl ++ ['\x7d'],
        by simp [encodeVal], Or.inr (Or.inr (Or.inl rfl))⟩

mutual

/-- Nesting size of a value: the parser fuel it needs. -/
def jsize : Json → Nat
  | Json.str _ => 1
  | Json.int _ => 1
  | Json.arr xs => jsizeItems xs + 1
  | Json.obj fs => jsizeFields fs + 1

/-- Fuel needed by `parseItems` for the items of a non-empty array. -/
def jsizeItems : List Json → Nat
  | [] => 0
  | x :: xs => max (jsize x) (jsizeItems xs) + 1

/-- Fuel needed by `parseFields` for the members of a non-empty object. -/
def jsizeFields : List (String × Json) → Nat
  | [] => 0
  | kv :: fs => max (jsize kv.2) (jsizeFields fs) + 1

end

theorem jsize_pos (j : Json) : 1 ≤ jsize j := by
  cases j <;> simp [jsize] <;> omega

theorem head_not_digit_cons {a : Char} (ha : a.isDigit = false) (l : List Char) :
    ∀ c, (a :: l).head? = some c → c.isDigit = false := by
  intro c hc
  simp only [List.head?_cons, Option.some.injEq] at hc
  subst hc
  exact ha

theorem head_not_digit_nlPad (lvl : Nat) (l : List Char) :
    ∀ c, (nlPad lvl ++ l).head? = some c → c.isDigit = false := by
  intro c hc
  simp only [nlPad, List.cons_append, List.head?_cons, Option.some.injEq] at hc
  subst hc
  decide

/-- The parser reads back exactly what the serializer wrote: the mutual
round-trip statement for values, array items and object members, by
induction on the parser fuel. -/
theorem parse_encode_all : ∀ f : Nat,
    (∀ j lvl rest, jsize j ≤ f → (∀ c, rest.head? = some c → c.isDigit = false) →
      parseVal f (encodeVal lvl j ++ rest) = some (j, rest)) ∧
    (∀ x xs lvl rest, jsizeItems (x :: xs) ≤ f →
      (∀ c, rest.head? = some c → c.isDigit = false) →
      parseItems f (encodeVal (lvl + 1) x ++
        (encodeItemsTail (lvl + 1) xs ++ (nlPad lvl ++ (']' :: rest)))) =
        some (x :: xs, rest)) ∧
    (∀ kv fs lvl rest, jsizeFields (kv :: fs) ≤ f →
      (∀ c, rest.head? = some c → c.isDigit = false) →
      parseFields f (encodeField (lvl + 1) kv ++
        (encodeFieldsTail (lvl + 1) fs ++ (nlPad lvl ++ ('\x7d' :: rest)))) =
        some (kv :: fs, rest)) := by
  intro f
  induction f with
  | zero =>
    refine ⟨?_, ?_, ?_⟩
    · intro j lvl rest hsz _
      exact absurd hsz (by have := jsize_pos j; omega)
    · intro x xs lvl rest hsz _
      exact absurd hsz (by simp [jsizeItems])
    · intro kv fs lvl rest hsz _
      exact absurd hsz (by simp [jsizeFields])
  | succ f ih =>
    obtain ⟨ihV, ihI, ihF⟩ := ih
    refine ⟨?_, ?_, ?_⟩
    · -- values
      intro j lvl rest hsz hrest
      cases j with
      | str s =>
        rw [show encodeVal lvl (Json.str s) = encodeString s from by simp [encodeVal]]
        rw [encodeString, List.cons_append, List.append_assoc, parseVal,
          skipWs_cons_false (by decide)]
        simp only [if_pos rfl, List.singleton_append]
        rw [parseStrAux_encode s.data [] rest]
        simp [string_mk_data]
      | int n =>
        rw [show encodeVal lvl (Json.int n) = encodeInt n from by simp [encodeVal]]
        obtain ⟨c, cs, hc, hd⟩ := encodeInt_head n
        have hclass : c = '"' ∨ c = '[' ∨ c = '\x7b' ∨ c = '-' ∨ c.isDigit = true := by
          rcases hd with rfl | hd
          · exact Or.inr (Or.inr (Or.inr (Or.inl rfl)))
          · exact Or.inr (Or.inr (Or.inr (Or.inr hd)))
        rw [hc, List.cons_append, parseVal, skipWs_cons_false (headClass_not_ws hclass)]
        simp only [if_neg (show c ≠ '"' by
            rcases hd with rfl | hd
            · decide
            · exact isDigit_ne_of hd (by decide)),
          if_neg (show c ≠ '[' by
            rcases hd with rfl | hd
            · decide
            · exact isDigit_ne_of hd (by decide)),
          if_neg (show c ≠ '\x7b' by
            rcases hd with rfl | hd
            · decide
            · exact isDigit_ne_of hd (by decide))]
        rw [← List.cons_append, ← hc]
        exact parseNum_encodeInt n rest hrest
      | arr xs =>
        cases xs with
        | nil =>
          rw [show encodeVal lvl (Json.arr []) = ['[', ']'] from by simp [encodeVal]]
          rw [List.cons_append, parseVal, skipWs_cons_false (by decide)]
          simp only [List.singleton_append]
          simp [skipWs_cons_false (show isJsonWs ']' = false from by decide)]
        | cons x xs =>
          rw [show encodeVal lvl (Json.arr (x :: xs)) =
              '[' :: (nlPad (lvl + 1) ++ encodeVal (lvl + 1) x ++
                encodeItemsTail (lvl + 1) xs ++ nlPad lvl ++ [']']) from by simp [encodeVal]]
          rw [List.cons_append, parseVal, skipWs_cons_false (by decide)]
          rw [show (nlPad (lvl + 1) ++ encodeVal (lvl + 1) x ++
                encodeItemsTail (lvl + 1) xs ++ nlPad lvl ++ [']']) ++ rest =
              nlPad (lvl + 1) ++ (encodeVal (lvl + 1) x ++
                (encodeItemsTail (lvl + 1) xs ++ (nlPad lvl ++ (']' :: rest)))) from by
            simp [List.append_assoc]]
          simp only [eq_false (show ¬ (('[' : Char) = '"') from by decide), if_false,
            eq_true (show ('[' : Char) = '[' from rfl), if_true]
          rw [skipWs_append_of_ws _ nlPad_ws]
          obtain ⟨c0, cs0, hc0, hcl0⟩ := encodeVal_head (lvl + 1) x
          rw [hc0, List.cons_append, skipWs_cons_false (headClass_not_ws hcl0)]
          have hne : c0 ≠ ']' :=
            headClass_ne hcl0 (by decide) (by decide) (by decide) (by decide) (by decide)
          simp only [eq_false hne, if_false]
          rw [← List.cons_append, ← hc0]
          have hszI : jsizeItems (x :: xs) ≤ f := by
            have h2 : jsize (Json.arr (x :: xs)) = jsizeItems (x :: xs) + 1 := by
              simp [jsize]
            omega
          rw [ihI x xs lvl rest hszI hrest]
      | obj fs =>
        cases fs with
        | nil =>
          rw [show encodeVal lvl (Json.obj []) = ['\x7b', '\x7d'] from by simp [encodeVal]]
          rw [List.cons_append, parseVal, skipWs_cons_false (by decide)]
          simp only [List.singleton_append]
          simp [skipWs_cons_false (show isJsonWs '\x7d' = false from by decide)]
        | cons kv fs =>
          obtain ⟨k, v⟩ := kv
          rw [show encodeVal lvl (Json.obj ((k, v) :: fs)) =
              '\x7b' :: (nlPad (lvl + 1) ++ encodeField (lvl + 1) (k, v) ++
                encodeFieldsTail (lvl + 1) fs ++ nlPad lvl ++ ['\x7d']) from by
            simp [encodeVal]]
          rw [List.cons_append, parseVal, skipWs_cons_false (by decide)]
          rw [show (nlPad (lvl + 1) ++ encodeField (lvl + 1) (k, v) ++
                encodeFieldsTail (lvl + 1) fs ++ nlPad lvl ++ ['\x7d']) ++ rest =
              nlPad (lvl + 1) ++ (encodeField (lvl + 1) (k, v) ++
                (encodeFieldsTail (lvl + 1) fs ++ (nlPad lvl ++ ('\x7d' :: rest)))) from by
            simp [List.append_assoc]]
          simp only [eq_false (show ¬ (('\x7b' : Char) = '"') from by decide), if_false,
            eq_false (show ¬ (('\x7b' : Char) = '[') from by decide),
            eq_true (show ('\x7b' : Char) = '\x7b' from rfl), if_true]
          rw [skipWs_append_of_ws _ nlPad_ws]
          have hf : encodeField (lvl + 1) (k, v) =
              '"' :: ((escapeList k.data ++ ['"']) ++ (':' :: ' ' :: encodeVal (lvl + 1) v)) := by
            simp [encodeField, encodeString]
          rw [hf, List.cons_append, skipWs_cons_false (by decide)]
          simp only [eq_false (show ¬ (('"' : Char) = '\x7d') from by decide), if_false]
          rw [← List.cons_append, ← hf]
          have hszF : jsizeFields ((k, v) :: fs) ≤ f := by
            have h2 : jsize (Json.obj ((k, v) :: fs)) = jsizeFields ((k, v) :: fs) + 1 := by
              simp [jsize]
            omega
          rw [ihF (k, v) fs lvl rest hszF hrest]
    · -- array items
      intro x xs lvl rest hsz hrest
      rw [parseItems]
      have hszx : jsize x ≤ f := by
        have h2 : jsizeItems (x :: xs) = max (jsize x) (jsizeItems xs) + 1 := by
          simp [jsizeItems]
        have h3 := le_max_left (jsize x) (jsizeItems xs)
        omega
      cases xs with
      | nil =>
        rw [show encodeItemsTail (lvl + 1) ([] : List Json) = [] from by
          simp [encodeItemsTail]]
        rw [List.nil_append]
        rw [ihV x (lvl + 1) (nlPad lvl ++ (']' :: rest)) hszx (head_not_digit_nlPad lvl _)]
        simp only [skipWs_append_of_ws _ nlPad_ws,
          skipWs_cons_false (show isJsonWs ']' = false from by decide),
          eq_false (show ¬ ((']' : Char) = ',') from by decide), if_false,
          eq_true (show (']' : Char) = ']' from rfl), if_true]
      | cons y ys =>
        rw [show encodeItemsTail (lvl + 1) (y :: ys) =
            ',' :: (nlPad (lvl + 1) ++ encodeVal (lvl + 1) y ++ encodeItemsTail (lvl + 1) ys)
          from by simp [encodeItemsTail]]
        rw [show (',' :: (nlPad (lvl + 1) ++ encodeVal (lvl + 1) y ++
              encodeItemsTail (lvl + 1) ys)) ++ (nlPad lvl ++ (']' :: rest)) =
            ',' :: (nlPad (lvl + 1) ++ (encodeVal (lvl + 1) y ++
              (encodeItemsTail (lvl + 1) ys ++ (nlPad lvl ++ (']' :: rest))))) from by
          simp [List.append_assoc]]
        rw [ihV x (lvl + 1) _ hszx (head_not_digit_cons (by decide) _)]
        simp only [skipWs_cons_false (show isJsonWs ',' = false from by decide),
          eq_true (show ((',' : Char) = ',') from rfl), if_true]
        rw [parseItems_append_ws f _ nlPad_ws]
        have hszys : jsizeItems (y :: ys) ≤ f := by
          have h2 : jsizeItems (x :: y :: ys) = max (jsize x) (jsizeItems (y :: ys)) + 1 := by
            simp [jsizeItems]
          have h3 := le_max_right (jsize x) (jsizeItems (y :: ys))
          omega
        rw [ihI y ys lvl rest hszys hrest]
    · -- object members
      intro kv fs lvl rest hsz hrest
      obtain ⟨k, v⟩ := kv
      rw [show encodeField (lvl + 1) (k, v) =
          encodeString k ++ ':' :: ' ' :: encodeVal (lvl + 1) v from by simp [encodeField]]
      rw [encodeString]
      rw [show (('"' :: (escapeList k.data ++ ['"'])) ++ (':' :: ' ' :: encodeVal (lvl + 1) v)) ++
            (encodeFieldsTail (lvl + 1) fs ++ (nlPad lvl ++ ('\x7d' :: rest))) =
          '"' :: (escapeList k.data ++ ('"' :: (':' :: (' ' :: (encodeVal (lvl + 1) v ++
            (encodeFieldsTail (lvl + 1) fs ++ (nlPad lvl ++ ('\x7d' :: rest)))))))) from by
        simp [List.append_assoc]]
      rw [parseFields, skipWs_cons_false (by decide)]
      simp only [eq_true (show ('"' : Char) = '"' from rfl), if_true]
      rw [parseStrAux_encode k.data []]
      simp only [List.reverse_nil, List.nil_append]
      simp only [skipWs_cons_false (show isJsonWs ':' = false from by decide),
        eq_true (show ((':' : Char) = ':') from rfl), if_true]
      rw [show (' ' :: (encodeVal (lvl + 1) v ++ (encodeFieldsTail (lvl + 1) fs ++
            (nlPad lvl ++ ('\x7d' :: rest))))) =
          [' '] ++ (encodeVal (lvl + 1) v ++ (encodeFieldsTail (lvl + 1) fs ++
            (nlPad lvl ++ ('\x7d' :: rest)))) from rfl]
      rw [parseVal_append_ws f _ (by
        intro c hc
        simp only [List.mem_singleton] at hc
        subst hc
        decide)]
      have hszv : jsize v ≤ f := by
        have h2 : jsizeFields ((k, v) :: fs) = max (jsize v) (jsizeFields fs) + 1 := by
          simp [jsizeFields]
        have h3 := le_max_left (jsize v) (jsizeFields fs)
        omega
      cases fs with
      | nil =>
        rw [show encodeFieldsTail (lvl + 1) ([] : List (String × Json)) = [] from by
          simp [encodeFieldsTail]]
        rw [List.nil_append]
        rw [ihV v (lvl + 1) (nlPad lvl ++ ('\x7d' :: rest)) hszv (head_not_digit_nlPad lvl _)]
        simp only [skipWs_append_of_ws _ nlPad_ws,
          skipWs_cons_false (show isJsonWs '\x7d' = false from by decide),
          eq_false (show ¬ (('\x7d' : Char) = ',') from by decide), if_false,
          eq_true (show ('\x7d' : Char) = '\x7d' from rfl), if_true]
      | cons kv2 fs2 =>
        rw [show encodeFieldsTail (lvl + 1) (kv2 :: fs2) =
            ',' :: (nlPad (lvl + 1) ++ encodeField (lvl + 1) kv2 ++
              encodeFieldsTail (lvl + 1) fs2) from by simp [encodeFieldsTail]]
        rw [show (',' :: (nlPad (lvl + 1) ++ encodeField (lvl + 1) kv2 ++
              encodeFieldsTail (lvl + 1) fs2)) ++ (nlPad lvl ++ ('\x7d' :: rest)) =
            ',' :: (nlPad (lvl + 1) ++ (encodeField (lvl + 1) kv2 ++
              (encodeFieldsTail (lvl + 1) fs2 ++ (nlPad lvl ++ ('\x7d' :: rest))))) from by
          simp [List.append_assoc]]
        rw [ihV v (lvl + 1) _ hszv (head_not_digit_cons (by decide) _)]
        simp only [skipWs_cons_false (show isJsonWs ',' = false from by decide),
          eq_true (show ((',' : Char) = ',') from rfl), if_true]
        rw [parseFields_append_ws f _ nlPad_ws]
        have hszfs2 : jsizeFields (kv2 :: fs2) ≤ f := by
          have h2 : jsizeFields ((k, v) :: kv2 :: fs2) =
              max (jsize v) (jsizeFields (kv2 :: fs2)) + 1 := by simp [jsizeFields]
          have h3 := le_max_right (jsize v) (jsizeFields (kv2 :: fs2))
          omega
        rw [ihF kv2 fs2 lvl rest hszfs2 hrest]

theorem nlPad_length (lvl : Nat) : (nlPad lvl).length = 4 * lvl + 1 := by
  simp [nlPad]

theorem json_sizeOf_pos (j : Json) : 1 ≤ sizeOf j := by
  cases j <;> simp <;> omega

theorem list_sizeOf_pos {α : Type} [SizeOf α] (l : List α) : 1 ≤ sizeOf l := by
  cases l <;> simp <;> omega

theorem encodeString_length_pos (s : String) : 2 ≤ (encodeString s).length := by
  rw [encodeString]
  simp [List.length_cons, List.length_append]

/-- The fuel `jsonLoad` passes (input length plus one) covers the nesting
size of any value `jsonDump` wrote: each nesting level costs at least one
character. -/
theorem jsize_le_len_all : ∀ k : Nat,
    (∀ j lvl, sizeOf j ≤ k → jsize j ≤ (encodeVal lvl j).length) ∧
    (∀ x xs lvl, sizeOf x + sizeOf xs ≤ k →
      jsizeItems (x :: xs) ≤
        (encodeVal lvl x).length + (encodeItemsTail lvl xs).length + 3) ∧
    (∀ (kv : String × Json) fs lvl, sizeOf kv.2 + sizeOf fs ≤ k →
      jsizeFields (kv :: fs) ≤
        (encodeField lvl kv).length + (encodeFieldsTail lvl fs).length + 3) := by
  intro k
  induction k with
  | zero =>
    refine ⟨?_, ?_, ?_⟩
    · intro j lvl hsz
      exact absurd hsz (by have := json_sizeOf_pos j; omega)
    · intro x xs lvl hsz
      exact absurd hsz (by have := json_sizeOf_pos x; have := list_sizeOf_pos xs; omega)
    · intro kv fs lvl hsz
      exact absurd hsz (by have := json_sizeOf_pos kv.2; have := list_sizeOf_pos fs; omega)
  | succ k ih =>
    obtain ⟨ihV, ihI, ihF⟩ := ih
    refine ⟨?_, ?_, ?_⟩
    · intro j lvl hsz
      cases j with
      | str s =>
        rw [show encodeVal lvl (Json.str s) = encodeString s from by simp [encodeVal]]
        have := encodeString_length_pos s
        simp only [jsize]
        omega
      | int n =>
        obtain ⟨c, cs, hc, -⟩ := encodeInt_head n
        rw [show encodeVal lvl (Json.int n) = encodeInt n from by simp [encodeVal]]
        rw [hc]
        simp only [jsize, List.length_cons]
        omega
      | arr xs =>
        cases xs with
        | nil =>
          rw [show encodeVal lvl (Json.arr []) = ['[', ']'] from by simp [encodeVal]]
          simp [jsize, jsizeItems]
        | cons x xs =>
          have hx : sizeOf x + sizeOf xs ≤ k := by
            have hs : sizeOf (Json.arr (x :: xs)) = 1 + (1 + sizeOf x + sizeOf xs) := by
              simp
            omega
          have hI := ihI x xs (lvl + 1) hx
          rw [show encodeVal lvl (Json.arr (x :: xs)) =
              '[' :: (nlPad (lvl + 1) ++ encodeVal (lvl + 1) x ++
                encodeItemsTail (lvl + 1) xs ++ nlPad lvl ++ [']']) from by simp [encodeVal]]
          rw [show jsize (Json.arr (x :: xs)) = jsizeItems (x :: xs) + 1 from by simp [jsize]]
          simp only [List.length_cons, List.length_append, nlPad_length,
            List.length_singleton]
          omega
      | obj fs =>
        cases fs with
        | nil =>
          rw [show encodeVal lvl (Json.obj []) = ['\x7b', '\x7d'] from by simp [encodeVal]]
          simp [jsize, jsizeFields]
        | cons kv fs =>
          have hx : sizeOf kv.2 + sizeOf fs ≤ k := by
            obtain ⟨a, b⟩ := kv
            have hs : sizeOf (Json.obj ((a, b) :: fs)) =
                1 + (1 + (1 + sizeOf a + sizeOf b) + sizeOf fs) := by simp
            have := json_sizeOf_pos b
            simp only
            omega
          have hI := ihF kv fs (lvl + 1) hx
          rw [show encodeVal lvl (Json.obj (kv :: fs)) =
              '\x7b' :: (nlPad (lvl + 1) ++ encodeField (lvl + 1) kv ++
                encodeFieldsTail (lvl + 1) fs ++ nlPad lvl ++ ['\x7d']) from by
            cases kv; simp [encodeVal]]
          rw [show jsize (Json.obj (kv :: fs)) = jsizeFields (kv :: fs) + 1 from by
            simp [jsize]]
          simp only [List.length_cons, List.length_append, nlPad_length,
            List.length_singleton]
          omega
    · intro x xs lvl hsum
      have hvx : sizeOf x ≤ k := by have := list_sizeOf_pos xs; omega
      have hlenx := ihV x lvl hvx
      cases xs with
      | nil =>
        rw [show jsizeItems [x] = max (jsize x) (jsizeItems []) + 1 from by simp [jsizeItems]]
        rw [show jsizeItems ([] : List Json) = 0 from by simp [jsizeItems]]
        simp only [Nat.max_zero]
        omega
      | cons y ys =>
        have hyys : sizeOf y + sizeOf ys ≤ k := by
          have := json_sizeOf_pos x
          have hs : sizeOf (y :: ys) = 1 + sizeOf y + sizeOf ys := by simp
          omega
        have hIys := ihI y ys lvl hyys
        rw [show jsizeItems (x :: y :: ys) = max (jsize x) (jsizeItems (y :: ys)) + 1 from by
          simp [jsizeItems]]
        rw [show encodeItemsTail lvl (y :: ys) =
            ',' :: (nlPad lvl ++ encodeVal lvl y ++ encodeItemsTail lvl ys) from by
          simp [encodeItemsTail]]
        simp only [List.length_cons, List.length_append, nlPad_length]
        omega
    · intro kv fs lvl hsum
      obtain ⟨kk, v⟩ := kv
      have hvx : sizeOf v ≤ k := by have := list_sizeOf_pos fs; simp only at hsum; omega
      have hlenv := ihV v lvl hvx
      have hfl : (encodeField lvl (kk, v)).length =
          (encodeString kk).length + 2 + (encodeVal lvl v).length := by
        rw [show encodeField lvl (kk, v) =
            encodeString kk ++ ':' :: ' ' :: encodeVal lvl v from by simp [encodeField]]
        simp only [List.length_append, List.length_cons]
        omega
      have hks := encodeString_length_pos kk
      cases fs with
      | nil =>
        rw [show jsizeFields [(kk, v)] = max (jsize v) (jsizeFields []) + 1 from by
          simp [jsizeFields]]
        rw [show jsizeFields ([] : List (String × Json)) = 0 from by simp [jsizeFields]]
        simp only [Nat.max_zero]
        omega
      | cons kv2 fs2 =>
        have h2 : sizeOf kv2.2 + sizeOf fs2 ≤ k := by
          obtain ⟨a2, b2⟩ := kv2
          have := json_sizeOf_pos v
          have hs : sizeOf ((a2, b2) :: fs2) = 1 + (1 + sizeOf a2 + sizeOf b2) + sizeOf fs2 := by
            simp
          have := json_sizeOf_pos b2
          simp only at hsum ⊢
          omega
        have hI2 := ihF kv2 fs2 lvl h2
        rw [show jsizeFields ((kk, v) :: kv2 :: fs2) =
            max (jsize v) (jsizeFields (kv2 :: fs2)) + 1 from by simp [jsizeFields]]
        rw [show encodeFieldsTail lvl (kv2 :: fs2) =
            ',' :: (nlPad lvl ++ encodeField lvl kv2 ++ encodeFieldsTail lvl fs2) from by
          simp [encodeFieldsTail]]
        simp only [List.length_cons, List.length_append, nlPad_length]
        omega

theorem jsize_le_encode_len (j : Json) (lvl : Nat) : jsize j ≤ (encodeVal lvl j).length :=
  (jsize_le_len_all (sizeOf j)).1 j lvl (le_refl _)

/-- The parser reads back exactly the value the serializer wrote. -/
theorem jsonLoad_jsonDump (j : Json) : jsonLoad (jsonDump j) = some j := by
  unfold jsonDump jsonLoad
  have hdata : (String.mk (encodeVal 0 j)).data = encodeVal 0 j := rfl
  rw [hdata]
  have hb := (parse_encode_all ((encodeVal 0 j).length + 1)).1 j 0 []
    (by have := jsize_le_encode_len j 0; omega)
    (by intro c hc; simp at hc)
  rw [List.append_nil] at hb
  rw [hb]
  simp [skipWs]

/-- Claim C6: saving a directory of records with `salvar_dados` and loading
it back from the same path with `carregar_dados` returns exactly the same
record list — same number of records, identical field values, original
order. -/
theorem carregar_salvar_roundtrip (arquivo : String) (registros : List Json) (fs : FS) :
    carregar_dados arquivo (salvar_dados arquivo (Json.arr registros) fs) =
      some (Json.arr registros) := by
  unfold carregar_dados salvar_dados
  simp only [if_pos rfl]
  exact jsonLoad_jsonDump (Json.arr registros)
